import Mathlib

/-!
Shallow embedding of the gomongo query/pipeline construction subsystem and
its repository layer, for checking the natural-language specification.

Sources embedded from the repository:
  * `util` package: `StringToObjectId` (string to identifier conversion with
    silent fallback to a freshly generated identifier on parse failure).
  * `database` package: `BaseDoc`, `DocStatus`, `InitializeBaseDoc`,
    `RemoveObjectId`, `Create`, `CreateMany`, and the error handling of
    `BaseRepository.FindOne`.

The `condition`, `aggregate` and `qb` packages of the repository are not in
the source tree (only their tests and callers are); their definitions below
are modelled from the specification and are marked as such.

The mongo driver's `primitive.ObjectID` (an external dependency) is modelled
from its documented behavior: `ObjectIDFromHex` accepts a 24-character hex
string (upper or lower case digits) and `Hex` re-encodes with the lowercase
alphabet "0123456789abcdef". Fresh identifier generation
(`primitive.NewObjectID`) is nondeterministic, so every function that calls
it takes the generated identifier as an explicit `fresh` parameter; the
generator never returns the all-zero identifier (its leading bytes hold the
current timestamp), which appears as an explicit hypothesis where needed.

Time (`time.Now()`) is modelled as an explicit `now : Nat` parameter.
-/

set_option autoImplicit false

namespace primitive

/-- Numeric value of a single hex digit, mirroring the hex character table
used by `encoding/hex`: `0`-`9`, `a`-`f` and `A`-`F` are accepted. -/
def hexCharVal (c : Char) : Option Nat :=
  if '0' ≤ c ∧ c ≤ '9' then some (c.toNat - '0'.toNat)
  else if 'a' ≤ c ∧ c ≤ 'f' then some (c.toNat - 'a'.toNat + 10)
  else if 'A' ≤ c ∧ c ≤ 'F' then some (c.toNat - 'A'.toNat + 10)
  else none

/-- Decode a list of hex characters into bytes, two characters per byte;
fails on a non-hex character or an odd-length input (`hex.DecodeString`). -/
def hexDecodeList : List Char → Option (List Nat)
  | [] => some []
  | c1 :: c2 :: rest =>
    match hexCharVal c1, hexCharVal c2, hexDecodeList rest with
    | some h, some l, some bs => some ((16 * h + l) :: bs)
    | _, _, _ => none
  | [_] => none

/-- Encode one byte as two lowercase hex characters (`hex.EncodeToString`
uses the alphabet "0123456789abcdef"). -/
def byteToHex (b : Nat) : List Char :=
  [Nat.digitChar (b / 16), Nat.digitChar (b % 16)]

/-- The sixteen lowercase hex digits, the alphabet `Hex` encodes with. -/
def lowerHexDigits : List Char :=
  (List.range 16).map Nat.digitChar

/-- The driver's `primitive.ObjectID`: a 12-byte identifier. -/
structure ObjectId where
  bytes : List Nat
  deriving DecidableEq

/-- The all-zero identifier, `primitive.NilObjectID`. -/
def NilObjectID : ObjectId := ⟨List.replicate 12 0⟩

/-- The driver's `ObjectID.IsZero`: comparison against `NilObjectID`. -/
def ObjectId.IsZero (o : ObjectId) : Bool := o == NilObjectID

/-- The driver's `primitive.ObjectIDFromHex`: requires length 24, then hex
decodes (accepting both uppercase and lowercase digits). -/
def ObjectIDFromHex (s : String) : Option ObjectId :=
  if s.length = 24 then (hexDecodeList s.data).map ObjectId.mk else none

/-- The driver's `ObjectID.Hex`: lowercase hex encoding of the bytes. -/
def ObjectId.Hex (o : ObjectId) : String :=
  String.mk (o.bytes.map byteToHex).flatten

end primitive

namespace util

open primitive

/-- Embeds `util.StringToObjectId`: converts a string to an identifier; on a
conversion error it returns a freshly generated identifier instead (the
generated value is passed in as `fresh`). -/
def StringToObjectId (fresh : ObjectId) (id : String) : ObjectId :=
  match ObjectIDFromHex id with
  | some o => o
  | none => fresh

end util

/-- A BSON value: the value side of the loosely typed query documents built
by the condition and pipeline builders. -/
inductive BsonValue where
  | int (n : Int)
  | str (s : String)
  | objectId (o : primitive.ObjectId)
  | regex (pattern : String)
  | doc (fields : List (String × BsonValue))

/-- A filter document: an ordered list of top-level key/value entries
(a Fragment or Composite Filter in the specification's data model). -/
abbrev Fragment := List (String × BsonValue)

/-- Top-level keys of a filter document. -/
def fragKeys (d : Fragment) : List String := d.map Prod.fst

/-- Value stored under key `k`, if any. -/
def getKey (d : Fragment) (k : String) : Option BsonValue :=
  (d.find? (fun p => p.1 == k)).map Prod.snd

/-- Set key `k` to value `v` (a map assignment `m[k] = v`): overwrite an
existing entry in place, or append a new entry at the end. -/
def setKey : Fragment → String → BsonValue → Fragment
  | [], k, v => [(k, v)]
  | p :: rest, k, v =>
    if p.1 = k then (k, v) :: rest else p :: setKey rest k v

namespace condition

open primitive

/-- Error kinds of the condition builder, from the specification's error
handling design: an empty key, or an identifier string that fails to
convert. -/
inductive CondError where
  | emptyKey
  | invalidIdentifier (value : String)
  deriving DecidableEq

/-- Modelled from the spec: `condition.EqualTo` (the condition package is
not in the source tree). Builds the fragment `k ↦ ($eq ↦ v)`; fails with
`EmptyKey` when the key is empty. -/
def EqualTo (key : String) (value : BsonValue) : Except CondError Fragment :=
  if key = "" then .error .emptyKey
  else .ok [(key, .doc [("$eq", value)])]

/-- Modelled from the spec: `condition.ObjectIdMatch` (the condition package
is not in the source tree). Converts the value to a native identifier and
builds `key ↦ ($eq ↦ identifier)`; on an invalid identifier string it fails
with `InvalidIdentifier` rather than substituting a fresh identifier
(fallback semantics are opt-in and not modelled here, per the spec's
default). -/
def ObjectIdMatch (key : String) (value : String) : Except CondError Fragment :=
  match ObjectIDFromHex value with
  | some o => .ok [(key, .doc [("$eq", .objectId o)])]
  | none => .error (.invalidIdentifier value)

/-- Merge one fragment's entries into an accumulated document, later entries
overwriting earlier ones key by key. -/
def mergeFragment (acc f : Fragment) : Fragment :=
  f.foldl (fun a p => setKey a p.1 p.2) acc

/-- Modelled from the spec: `condition.Pipe` (the condition package is not
in the source tree). Merges N fragments into one document with AND
semantics; a later fragment that sets an already-present top-level key
overwrites the earlier entry (last-write-wins). -/
def Pipe (fs : List Fragment) : Fragment :=
  fs.foldl mergeFragment []

end condition

namespace aggregate

/-- A single named aggregation stage wrapping a stage body document. -/
structure Stage where
  name : String
  body : Fragment

/-- Modelled from the spec: `aggregate.Match` wraps a filter document into a
match-type stage. -/
def Match (f : Fragment) : Stage := ⟨"$match", f⟩

/-- Modelled from the spec: `aggregate.Project` wraps a named-field mapping
into a projection-type stage. -/
def Project (f : Fragment) : Stage := ⟨"$project", f⟩

/-- Modelled from the spec: `aggregate.Pipe` returns the stages in the exact
order given; this order is the pipeline's execution order. -/
def Pipe (stages : List Stage) : List Stage := stages

/-- Serialize one stage to its document form `{name: body}`. -/
def serializeStage (s : Stage) : Fragment := [(s.name, .doc s.body)]

/-- Serialize a pipeline: one document per stage, in pipeline order. -/
def serializePipeline (p : List Stage) : List Fragment :=
  p.map serializeStage

end aggregate

namespace qb

/-- A template token after scanning: a run of literal text, or a placeholder
reference by name. -/
inductive Token where
  | lit (text : List Char)
  | var (name : String)

/-- Error kinds of the template engine, from the specification's error
handling design. -/
inductive QbError where
  | UndefinedVariable (name : String)
  | TemplateRenderError (rendered : List Char) (cause : String)
  deriving DecidableEq

/-- Scan up to the closing delimiter of a placeholder: returns the
placeholder name characters and the remainder of the input after the two
closing braces, or `none` when the placeholder is never closed. -/
def splitAtClose : List Char → Option (List Char × List Char)
  | '}' :: '}' :: rest => some ([], rest)
  | c :: rest => (splitAtClose rest).map (fun p => (c :: p.1, p.2))
  | [] => none

/-- Scan a template into tokens. A placeholder opens with two braces and
closes with two braces; an unclosed opener is kept as literal text. The
fuel argument bounds recursion; `tokenize` supplies enough fuel for the
whole input, so the fuel-exhausted branch is never reached from it. -/
def tokenizeFuel : Nat → List Char → List Token
  | _, [] => []
  | 0, cs => [Token.lit cs]
  | fuel + 1, '{' :: '{' :: rest =>
    match splitAtClose rest with
    | some (nm, rem) => Token.var (String.mk nm) :: tokenizeFuel fuel rem
    | none => [Token.lit ('{' :: '{' :: rest)]
  | fuel + 1, c :: rest => Token.lit [c] :: tokenizeFuel fuel rest

/-- Scan a whole template into tokens. -/
def tokenize (cs : List Char) : List Token := tokenizeFuel cs.length cs

/-- Look a placeholder name up in the variable mapping. -/
def lookupVar (vars : List (String × String)) (n : String) : Option String :=
  (vars.find? (fun p => p.1 == n)).map Prod.snd

/-- Substitute the variable mapping into a token list: literal runs are
emitted verbatim, placeholders are replaced by the mapped text, and a
placeholder whose name is unbound fails with `UndefinedVariable`. -/
def renderTokens : List Token → List (String × String) → Except QbError (List Char)
  | [], _ => .ok []
  | Token.lit l :: ts, vars => (renderTokens ts vars).map (fun r => l ++ r)
  | Token.var n :: ts, vars =>
    match lookupVar vars n with
    | some v => (renderTokens ts vars).map (fun r => v.data ++ r)
    | none => .error (.UndefinedVariable n)

/-- Modelled from the spec: the rendering pass of `qb.Build` (the qb package
is not in the source tree). Scans the template for placeholders and
substitutes the variable mapping. -/
def render (t : List Char) (vars : List (String × String)) : Except QbError (List Char) :=
  renderTokens (tokenize t) vars

/-- The placeholder names referenced by a token list, in scan order. -/
def varNamesOfTokens (toks : List Token) : List String :=
  toks.filterMap (fun tk =>
    match tk with
    | Token.var n => some n
    | Token.lit _ => none)

/-- The placeholder names a template references, in scan order. -/
def referencedVars (t : List Char) : List String :=
  varNamesOfTokens (tokenize t)

/-- The first placeholder name referenced by a template that is unbound in
the variable mapping, if any. -/
def firstUnbound (t : List Char) (vars : List (String × String)) : Option String :=
  (referencedVars t).find? (fun n => (lookupVar vars n).isNone)

/-- Modelled from the spec: `qb.Build` (the qb package is not in the source
tree). Renders the template against the variable mapping, then decodes the
rendered text into the caller's target type; the decode step is the generic
parameter, and a decoder signals a parse failure as `TemplateRenderError`. -/
def Build {α : Type} (decode : List Char → Except QbError α)
    (t : List Char) (vars : List (String × String)) : Except QbError α :=
  match render t vars with
  | .error e => .error e
  | .ok s => decode s

end qb

namespace database

open primitive

/-- Embeds `database.DocStatus` (an int8 in the source). -/
abbrev DocStatus := Int

/-- Embeds the `Active` document status. -/
def Active : DocStatus := 1

/-- Embeds the `Inactive` document status. -/
def Inactive : DocStatus := 0

/-- Embeds `database.BaseDoc`: identifier, status and the two timestamp
fields (pointers to times, modelled as `Option Nat`). -/
structure BaseDoc where
  Id : ObjectId
  Status : DocStatus
  CreatedDate : Option Nat
  ModifiedDate : Option Nat
  deriving DecidableEq

/-- Embeds `BaseDoc.RemoveObjectId`: when the current identifier is not
zero it is replaced by a freshly generated one (passed in as `fresh`);
a zero identifier is left untouched. -/
def RemoveObjectId (fresh : ObjectId) (b : BaseDoc) : BaseDoc :=
  if !b.Id.IsZero then { b with Id := fresh } else b

/-- Embeds `BaseDoc.InitializeBaseDoc`: a fresh identifier (passed in as
`fresh`) is installed only when the current one is zero; status becomes
`Active` and both date fields are set to the current time. -/
def InitializeBaseDoc (fresh : ObjectId) (now : Nat) (b : BaseDoc) : BaseDoc :=
  { b with
    Id := if b.Id.IsZero then fresh else b.Id
    Status := Active
    CreatedDate := some now
    ModifiedDate := some now }

/-- Embeds the document-side effect of `BaseRepository.Create`: the handler
calls `InitializeBaseDoc` on the document and hands the result to the
collection's insert call; the returned value is the document as inserted. -/
def Create (fresh : ObjectId) (now : Nat) (doc : BaseDoc) : BaseDoc :=
  InitializeBaseDoc fresh now doc

/-- Embeds the document-side effect of `BaseRepository.CreateMany`: each
document is passed through `InitializeBaseDoc` (each call consuming one
freshly generated identifier) before the batch insert; the returned list is
the batch as inserted. -/
def CreateMany : List ObjectId → Nat → List BaseDoc → List BaseDoc
  | f :: fs, now, d :: ds => InitializeBaseDoc f now d :: CreateMany fs now ds
  | _, _, _ => []

/-- Driver-side errors surfaced by `SingleResult.Decode`: the sentinel
`mongo.ErrNoDocuments`, or any other decode error. -/
inductive MongoErr where
  | errNoDocuments
  | other (msg : String)
  deriving DecidableEq

/-- Driver model: `FindOne(query).Decode(rtn)` against a collection. When a
document matches the query it is decoded into the target; when none does,
the driver returns `mongo.ErrNoDocuments` and leaves the decode target
untouched. The result pairs the (possibly updated) target with the error. -/
def mongoFindOneDecode {α : Type} (coll : List α) (q : α → Bool) (rtn : α) :
    α × Option MongoErr :=
  match coll.find? q with
  | some d => (d, none)
  | none => (rtn, some .errNoDocuments)

/-- Embeds the error handling of `BaseRepository.FindOne`, applied to the
outcome of the driver's decode step: `mongo.ErrNoDocuments` is swallowed
(nil error), any other decode error is wrapped, success returns nil. The
result pairs the decode target with the returned error. -/
def FindOne {α : Type} (decoded : α × Option MongoErr) : α × Option String :=
  match decoded.2 with
  | some .errNoDocuments => (decoded.1, none)
  | some (.other m) => (decoded.1, some ("BaseRepository.FindOne - c.All: " ++ m))
  | none => (decoded.1, none)

end database

/-! ## Helper lemmas -/

/-- Pair induction on lists: empty, singleton, and two-step cons cases. -/
theorem pairInd {α : Type} {P : List α → Prop} (h0 : P [])
    (h1 : ∀ a, P [a]) (h2 : ∀ a b l, P l → P (a :: b :: l)) : ∀ l, P l
  | [] => h0
  | [a] => h1 a
  | a :: b :: l => h2 a b l (pairInd h0 h1 h2 l)

/-- Hex encoding of a byte inverts the decoding of its two digits. -/
theorem byteToHex_val (h l : Nat) (_hh : h < 16) (hl : l < 16) :
    primitive.byteToHex (16 * h + l) = [Nat.digitChar h, Nat.digitChar l] := by
  unfold primitive.byteToHex
  have e1 : (16 * h + l) / 16 = h := by omega
  have e2 : (16 * h + l) % 16 = l := by omega
  rw [e1, e2]

/-- Every lowercase hex digit decodes to a value under 16 that re-encodes
to the same character. -/
theorem hexCharVal_lower (c : Char) (hc : c ∈ primitive.lowerHexDigits) :
    ∃ v, primitive.hexCharVal c = some v ∧ v < 16 ∧ Nat.digitChar v = c := by
  simp only [primitive.lowerHexDigits, List.mem_map, List.mem_range] at hc
  obtain ⟨v, hv, hvc⟩ := hc
  refine ⟨v, ?_, hv, hvc⟩
  subst hvc
  revert hv
  revert v
  decide

/-- Hex decoding of an input starting with two characters. -/
theorem hexDecodeList_cons₂ (c1 c2 : Char) (rest : List Char) :
    primitive.hexDecodeList (c1 :: c2 :: rest) =
      (match primitive.hexCharVal c1, primitive.hexCharVal c2,
          primitive.hexDecodeList rest with
        | some h, some l, some bs => some ((16 * h + l) :: bs)
        | _, _, _ => none) := rfl

/-- Hex decoding succeeds on lowercase hex input of even length, and
re-encoding the decoded bytes restores the input. -/
theorem hexDecodeList_roundtrip :
    ∀ l : List Char, (∀ c ∈ l, c ∈ primitive.lowerHexDigits) → l.length % 2 = 0 →
      ∃ bs, primitive.hexDecodeList l = some bs ∧
        (bs.map primitive.byteToHex).flatten = l := by
  refine pairInd ?_ ?_ ?_
  · exact fun _ _ => ⟨[], rfl, rfl⟩
  · intro a _ heven
    simp at heven
  · intro a b l ih hlow heven
    obtain ⟨va, ha1, ha2, ha3⟩ := hexCharVal_lower a (hlow a (by simp))
    obtain ⟨vb, hb1, hb2, hb3⟩ := hexCharVal_lower b (hlow b (by simp))
    obtain ⟨bs, hdec, henc⟩ := ih (fun c hc => hlow c (by simp [hc]))
      (by simp only [List.length_cons] at heven ⊢; omega)
    refine ⟨(16 * va + vb) :: bs, ?_, ?_⟩
    · rw [hexDecodeList_cons₂, ha1, hb1, hdec]
    · rw [List.map_cons, List.flatten_cons, byteToHex_val va vb ha2 hb2, henc,
        ha3, hb3]
      rfl

/-- Keys of the empty document. -/
theorem fragKeys_nil : fragKeys ([] : Fragment) = [] := rfl

/-- Keys of a document unfold entry by entry. -/
theorem fragKeys_cons (p : String × BsonValue) (l : Fragment) :
    fragKeys (p :: l) = p.1 :: fragKeys l := rfl

/-- Lookup on a non-empty document checks the head entry first. -/
theorem getKey_cons (p : String × BsonValue) (l : Fragment) (k : String) :
    getKey (p :: l) k = if p.1 = k then some p.2 else getKey l k := by
  by_cases h : p.1 = k <;> simp [getKey, List.find?_cons, h]

/-- After setting key `k`, looking `k` up returns the new value. -/
theorem getKey_setKey_self (d : Fragment) (k : String) (v : BsonValue) :
    getKey (setKey d k v) k = some v := by
  induction d with
  | nil => simp [setKey, getKey_cons, getKey]
  | cons p rest ih =>
    by_cases h : p.1 = k
    · simp [setKey, h, getKey_cons]
    · simp [setKey, h, getKey_cons, ih]

/-- Setting key `k` does not change the value stored under other keys. -/
theorem getKey_setKey_ne (d : Fragment) (k k' : String) (v : BsonValue)
    (h : k' ≠ k) : getKey (setKey d k v) k' = getKey d k' := by
  induction d with
  | nil => simp [setKey, getKey_cons, getKey, Ne.symm h]
  | cons p rest ih =>
    by_cases hp : p.1 = k
    · rw [setKey, if_pos hp, getKey_cons, getKey_cons, hp, if_neg (Ne.symm h),
        if_neg (Ne.symm h)]
    · rw [setKey, if_neg hp, getKey_cons, getKey_cons, ih]

/-- Setting key `k` makes `k` a key of the document. -/
theorem mem_fragKeys_setKey_self (d : Fragment) (k : String) (v : BsonValue) :
    k ∈ fragKeys (setKey d k v) := by
  induction d with
  | nil => simp [setKey, fragKeys_cons, fragKeys_nil]
  | cons p rest ih =>
    by_cases h : p.1 = k
    · simp [setKey, h, fragKeys_cons]
    · rw [setKey, if_neg h, fragKeys_cons]
      exact List.mem_cons_of_mem _ ih

/-- Setting a key preserves all existing keys. -/
theorem mem_fragKeys_setKey_mono (d : Fragment) (k k' : String) (v : BsonValue)
    (h : k' ∈ fragKeys d) : k' ∈ fragKeys (setKey d k v) := by
  induction d with
  | nil => simp [fragKeys_nil] at h
  | cons p rest ih =>
    rw [fragKeys_cons] at h
    by_cases hp : p.1 = k
    · rw [setKey, if_pos hp, fragKeys_cons]
      rcases List.mem_cons.mp h with h | h
      · exact (h.trans hp) ▸ List.mem_cons_self _ _
      · exact List.mem_cons_of_mem _ h
    · rw [setKey, if_neg hp, fragKeys_cons]
      rcases List.mem_cons.mp h with h | h
      · exact h ▸ List.mem_cons_self _ _
      · exact List.mem_cons_of_mem _ (ih h)

/-- Merging a fragment does not change the value stored under keys the
fragment does not set. -/
theorem getKey_mergeFragment_of_not_mem (f : Fragment) :
    ∀ (acc : Fragment) (k : String), k ∉ fragKeys f →
      getKey (condition.mergeFragment acc f) k = getKey acc k := by
  induction f with
  | nil => intro acc k _; rfl
  | cons p rest ih =>
    intro acc k hk
    rw [fragKeys_cons] at hk
    have hk1 : k ≠ p.1 := fun h => hk (h ▸ List.mem_cons_self _ _)
    have hk2 : k ∉ fragKeys rest := fun h => hk (List.mem_cons_of_mem _ h)
    rw [condition.mergeFragment, List.foldl_cons]
    rw [show (List.foldl (fun a q => setKey a q.1 q.2) (setKey acc p.1 p.2) rest) =
      condition.mergeFragment (setKey acc p.1 p.2) rest from rfl]
    rw [ih _ _ hk2, getKey_setKey_ne _ _ _ _ hk1]

/-- Every key of either operand is a key of the merge. -/
theorem mem_fragKeys_mergeFragment (f : Fragment) :
    ∀ (acc : Fragment) (k : String), (k ∈ fragKeys acc ∨ k ∈ fragKeys f) →
      k ∈ fragKeys (condition.mergeFragment acc f) := by
  induction f with
  | nil =>
    intro acc k h
    rcases h with h | h
    · exact h
    · simp [fragKeys_nil] at h
  | cons p rest ih =>
    intro acc k h
    rw [condition.mergeFragment, List.foldl_cons]
    rw [show (List.foldl (fun a q => setKey a q.1 q.2) (setKey acc p.1 p.2) rest) =
      condition.mergeFragment (setKey acc p.1 p.2) rest from rfl]
    apply ih
    rcases h with h | h
    · exact Or.inl (mem_fragKeys_setKey_mono _ _ _ _ h)
    · rw [fragKeys_cons] at h
      rcases List.mem_cons.mp h with h | h
      · exact Or.inl (h ▸ mem_fragKeys_setKey_self acc p.1 p.2)
      · exact Or.inr h

/-- When a fragment's keys are distinct, merging it makes lookups on its
keys return its values (the fragment's entries win). -/
theorem getKey_mergeFragment_of_nodup (f : Fragment) :
    ∀ (acc : Fragment) (k : String), (fragKeys f).Nodup → k ∈ fragKeys f →
      getKey (condition.mergeFragment acc f) k = getKey f k := by
  induction f with
  | nil =>
    intro acc k _ hk
    simp [fragKeys_nil] at hk
  | cons p rest ih =>
    intro acc k hnd hk
    rw [fragKeys_cons] at hnd hk
    rw [List.nodup_cons] at hnd
    rw [condition.mergeFragment, List.foldl_cons]
    rw [show (List.foldl (fun a q => setKey a q.1 q.2) (setKey acc p.1 p.2) rest) =
      condition.mergeFragment (setKey acc p.1 p.2) rest from rfl]
    by_cases hpk : p.1 = k
    · subst hpk
      rw [getKey_mergeFragment_of_not_mem rest _ _ hnd.1, getKey_setKey_self,
        getKey_cons, if_pos rfl]
    · have hk' : k ∈ fragKeys rest := by
        rcases List.mem_cons.mp hk with h | h
        · exact absurd h.symm hpk
        · exact h
      rw [ih _ _ hnd.2 hk', getKey_cons, if_neg hpk]

/-- The two-fragment composite filter is the fold of both merges. -/
theorem conditionPipe_pair (f1 f2 : Fragment) :
    condition.Pipe [f1, f2] =
      condition.mergeFragment (condition.mergeFragment [] f1) f2 := rfl

/-- Referenced names of a token list starting with a literal run. -/
theorem varNames_cons_lit (l : List Char) (ts : List qb.Token) :
    qb.varNamesOfTokens (qb.Token.lit l :: ts) = qb.varNamesOfTokens ts := rfl

/-- Referenced names of a token list starting with a placeholder. -/
theorem varNames_cons_var (m : String) (ts : List qb.Token) :
    qb.varNamesOfTokens (qb.Token.var m :: ts) = m :: qb.varNamesOfTokens ts := rfl

/-- Rendering a literal run prepends it to the rendering of the rest. -/
theorem renderTokens_cons_lit (l : List Char) (ts : List qb.Token)
    (vars : List (String × String)) :
    qb.renderTokens (qb.Token.lit l :: ts) vars =
      (qb.renderTokens ts vars).map (fun r => l ++ r) := rfl

/-- Rendering a placeholder looks its name up in the variable mapping. -/
theorem renderTokens_cons_var (m : String) (ts : List qb.Token)
    (vars : List (String × String)) :
    qb.renderTokens (qb.Token.var m :: ts) vars =
      (match qb.lookupVar vars m with
        | some v => (qb.renderTokens ts vars).map (fun r => v.data ++ r)
        | none => .error (.UndefinedVariable m)) := rfl

/-- The renderer fails with the first referenced placeholder name that is
unbound in the variable mapping. -/
theorem renderTokens_first_unbound :
    ∀ (toks : List qb.Token) (vars : List (String × String)) (n : String),
      (qb.varNamesOfTokens toks).find? (fun m => (qb.lookupVar vars m).isNone) = some n →
      qb.renderTokens toks vars = .error (.UndefinedVariable n) := by
  intro toks
  induction toks with
  | nil => intro vars n h; simp [qb.varNamesOfTokens] at h
  | cons tk ts ih =>
    intro vars n h
    cases tk with
    | lit l =>
      rw [varNames_cons_lit] at h
      rw [renderTokens_cons_lit, ih vars n h]
      rfl
    | var m =>
      rw [varNames_cons_var] at h
      by_cases hm : (qb.lookupVar vars m).isNone = true
      · simp only [List.find?, hm, Option.some.injEq] at h
        rw [renderTokens_cons_var, Option.isNone_iff_eq_none.mp hm, h]
      · have hm' : (qb.lookupVar vars m).isNone = false :=
          Bool.eq_false_iff.mpr hm
        simp only [List.find?, hm'] at h
        cases hv : qb.lookupVar vars m with
        | none => rw [hv] at hm'; simp at hm'
        | some v =>
          rw [renderTokens_cons_var, hv, ih vars n h]
          rfl


/-! ## Claim theorems -/

/-- C1: for every key and every string value that is not a valid hex
identifier string, `ObjectIdMatch` fails with an `InvalidIdentifier` error
and never returns a fragment — no silent substitution of a freshly
generated identifier (fallback semantics being opt-in and off by default). -/
theorem objectIdMatch_invalid_identifier_fails (k v : String)
    (h : primitive.ObjectIDFromHex v = none) :
    condition.ObjectIdMatch k v = .error (.invalidIdentifier v) ∧
      ∀ f : Fragment, condition.ObjectIdMatch k v ≠ .ok f := by
  have he : condition.ObjectIdMatch k v = .error (.invalidIdentifier v) := by
    unfold condition.ObjectIdMatch
    rw [h]
  exact ⟨he, fun f hf => by rw [he] at hf; cases hf⟩

/-- C1 witness: the spec's concrete invalid identifier string. -/
theorem objectIdMatch_invalid_identifier_fails_witness :
    condition.ObjectIdMatch "_id" "not-a-valid-hex" =
      .error (.invalidIdentifier "not-a-valid-hex") :=
  (objectIdMatch_invalid_identifier_fails "_id" "not-a-valid-hex" (by decide)).1

/-- C2: the pipeline builder returns the stages in exactly the order given,
serialization preserves that order, and in particular piping a match stage
before a project stage serializes the match stage first. -/
theorem aggregatePipe_preserves_order (stages : List aggregate.Stage) :
    aggregate.Pipe stages = stages ∧
    aggregate.serializePipeline (aggregate.Pipe stages) =
      stages.map aggregate.serializeStage ∧
    ∀ m p : Fragment,
      aggregate.serializePipeline
          (aggregate.Pipe [aggregate.Match m, aggregate.Project p]) =
        [[("$match", BsonValue.doc m)], [("$project", BsonValue.doc p)]] :=
  ⟨rfl, rfl, fun _ _ => rfl⟩

/-- C3: for all fragments (with distinct internal keys, as builder
fragments are): every lookup on a key the later fragment sets returns the
later fragment's value — last-write-wins, whether or not the earlier
fragment also set that key; when the two fragments set disjoint key sets,
lookups on the earlier fragment's keys also keep its values; the composite
contains the keys of both; and concretely two `status` conditions with
values 1 and 2 compose to the `status`/`$eq 2` document. -/
theorem conditionPipe_and_merge_last_write_wins (f1 f2 : Fragment)
    (h1 : (fragKeys f1).Nodup) (h2 : (fragKeys f2).Nodup) :
    (∀ k, k ∈ fragKeys f2 → getKey (condition.Pipe [f1, f2]) k = getKey f2 k) ∧
    (∀ k, k ∈ fragKeys f1 → k ∈ fragKeys f2 →
        getKey (condition.Pipe [f1, f2]) k = getKey f2 k) ∧
    ((∀ k, k ∈ fragKeys f1 → k ∉ fragKeys f2) →
      ∀ k, k ∈ fragKeys f1 → getKey (condition.Pipe [f1, f2]) k = getKey f1 k) ∧
    (∀ k, k ∈ fragKeys f1 ∨ k ∈ fragKeys f2 →
        k ∈ fragKeys (condition.Pipe [f1, f2])) ∧
    condition.Pipe [[("status", BsonValue.doc [("$eq", BsonValue.int 1)])],
        [("status", BsonValue.doc [("$eq", BsonValue.int 2)])]] =
      [("status", BsonValue.doc [("$eq", BsonValue.int 2)])] := by
  have hwin : ∀ k, k ∈ fragKeys f2 →
      getKey (condition.Pipe [f1, f2]) k = getKey f2 k := by
    intro k hk
    rw [conditionPipe_pair, getKey_mergeFragment_of_nodup f2 _ _ h2 hk]
  refine ⟨hwin, fun k _ hk2 => hwin k hk2, ?_, ?_, rfl⟩
  · intro hdisj k hk
    rw [conditionPipe_pair,
      getKey_mergeFragment_of_not_mem f2 _ _ (hdisj k hk),
      getKey_mergeFragment_of_nodup f1 _ _ h1 hk]
  · intro k hk
    rw [conditionPipe_pair]
    rcases hk with hk | hk
    · exact mem_fragKeys_mergeFragment f2 _ _
        (Or.inl (mem_fragKeys_mergeFragment f1 _ _ (Or.inr hk)))
    · exact mem_fragKeys_mergeFragment f2 _ _ (Or.inr hk)

/-- C3 witness: a same-key pair exercising last-write-wins, and a
distinct-key pair exercising the disjoint branch. -/
theorem conditionPipe_and_merge_last_write_wins_witness :
    getKey (condition.Pipe [[("s", BsonValue.int 1)], [("s", BsonValue.int 2)]]) "s" =
        getKey [("s", BsonValue.int 2)] "s" ∧
      getKey (condition.Pipe [[("a", BsonValue.int 1)], [("b", BsonValue.int 2)]]) "a" =
        getKey [("a", BsonValue.int 1)] "a" :=
  ⟨(conditionPipe_and_merge_last_write_wins [("s", BsonValue.int 1)]
      [("s", BsonValue.int 2)]
      (by simp [fragKeys_cons, fragKeys_nil])
      (by simp [fragKeys_cons, fragKeys_nil])).1 "s" (by decide),
   (conditionPipe_and_merge_last_write_wins [("a", BsonValue.int 1)]
      [("b", BsonValue.int 2)]
      (by simp [fragKeys_cons, fragKeys_nil])
      (by simp [fragKeys_cons, fragKeys_nil])).2.2.1
     (by intro k hk
         simp [fragKeys_cons, fragKeys_nil] at hk
         subst hk
         decide) "a" (by decide)⟩

/-- C4: `EqualTo` builds the `$eq` fragment for every non-empty key, and
fails with `EmptyKey` on the empty key. -/
theorem equalTo_eq_fragment (k : String) (v : BsonValue) (h : k ≠ "") :
    condition.EqualTo k v = .ok [(k, BsonValue.doc [("$eq", v)])] ∧
      ∀ w : BsonValue, condition.EqualTo "" w = .error .emptyKey := by
  constructor
  · unfold condition.EqualTo
    rw [if_neg h]
  · intro w
    rfl

/-- C4 witness: the concrete `status` equality condition from the test. -/
theorem equalTo_eq_fragment_witness :
    condition.EqualTo "status" (BsonValue.int 1) =
      .ok [("status", BsonValue.doc [("$eq", BsonValue.int 1)])] :=
  (equalTo_eq_fragment "status" (BsonValue.int 1) (by decide)).1

/-- C5: whenever a template references a placeholder name unbound in the
variable mapping, `Build` fails with `UndefinedVariable` naming the first
such placeholder; in particular building the bare `missing` placeholder
template against an empty mapping fails with `UndefinedVariable "missing"`. -/
theorem build_unbound_variable_fails :
    (∀ (α : Type) (decode : List Char → Except qb.QbError α)
        (t : List Char) (vars : List (String × String)) (n : String),
      qb.firstUnbound t vars = some n →
      qb.Build decode t vars = .error (.UndefinedVariable n)) ∧
    qb.Build (fun s => Except.ok s)
        ['{', '{', 'm', 'i', 's', 's', 'i', 'n', 'g', '}', '}'] [] =
      .error (.UndefinedVariable "missing") := by
  constructor
  · intro α decode t vars n h
    have hr : qb.render t vars = .error (.UndefinedVariable n) :=
      renderTokens_first_unbound (qb.tokenize t) vars n h
    unfold qb.Build
    rw [hr]
  · rfl

/-- C5 witness: a one-placeholder template against a mapping that binds a
different name. -/
theorem build_unbound_variable_fails_witness :
    qb.Build (fun s => Except.ok s) ['{', '{', 'x', '}', '}'] [("y", "1")] =
      .error (.UndefinedVariable "x") :=
  build_unbound_variable_fails.1 (List Char) (fun s => Except.ok s)
    ['{', '{', 'x', '}', '}'] [("y", "1")] "x" (by decide)

/-- C6 counterexample: the uppercase spelling of the same 24-character
identifier is a valid hex identifier string (the conversion accepts it and
no fallback happens), yet converting back to text yields the lowercase
spelling, so the round-trip does not hold for every valid hex string. -/
theorem stringToObjectId_roundtrip_counterexample :
    (primitive.ObjectIDFromHex "5C7836B73A8DE34C78FEC399").isSome = true ∧
      (util.StringToObjectId primitive.NilObjectID "5C7836B73A8DE34C78FEC399").Hex ≠
        "5C7836B73A8DE34C78FEC399" :=
  ⟨by decide, by decide⟩

/-- C6 (amended): for every 24-character identifier string of lowercase hex
digits — the spec's "5c7836b73a8de34c78fec399" among them — the conversion
succeeds without fallback, the converted identifier re-encodes to the
original string, and `ObjectIdMatch` embeds exactly that identifier in its
fragment. -/
theorem objectIdMatch_roundtrip_lower (s : String) (hlen : s.length = 24)
    (hlow : ∀ c ∈ s.data, c ∈ primitive.lowerHexDigits) :
    (∀ fresh, (util.StringToObjectId fresh s).Hex = s) ∧
      ∃ o, primitive.ObjectIDFromHex s = some o ∧
        condition.ObjectIdMatch "_id" s =
          .ok [("_id", BsonValue.doc [("$eq", BsonValue.objectId o)])] ∧
        o.Hex = s := by
  have hdlen : s.data.length = 24 := hlen
  obtain ⟨bs, hdec, henc⟩ := hexDecodeList_roundtrip s.data hlow (by rw [hdlen])
  have hparse : primitive.ObjectIDFromHex s = some ⟨bs⟩ := by
    unfold primitive.ObjectIDFromHex
    rw [if_pos hlen, hdec]
    rfl
  have hhex : primitive.ObjectId.Hex ⟨bs⟩ = s := by
    show String.mk ((bs.map primitive.byteToHex).flatten) = s
    rw [henc]
  refine ⟨?_, ⟨bs⟩, hparse, ?_, hhex⟩
  · intro fresh
    unfold util.StringToObjectId
    rw [hparse]
    exact hhex
  · unfold condition.ObjectIdMatch
    rw [hparse]

/-- C6 witness: the spec's concrete lowercase identifier string. -/
theorem objectIdMatch_roundtrip_lower_witness :
    (util.StringToObjectId primitive.NilObjectID "5c7836b73a8de34c78fec399").Hex =
      "5c7836b73a8de34c78fec399" :=
  (objectIdMatch_roundtrip_lower "5c7836b73a8de34c78fec399" (by decide)
    (by decide)).1 primitive.NilObjectID

/-- C7: rendering is a deterministic function of the template and the
variable mapping, and `EqualTo` is deterministic in its key and value: two
successful runs on identical inputs return identical results. -/
theorem render_and_equalTo_deterministic :
    (∀ (t : List Char) (vars : List (String × String)) (s₁ s₂ : List Char),
        qb.render t vars = .ok s₁ → qb.render t vars = .ok s₂ → s₁ = s₂) ∧
      ∀ (k : String) (v : BsonValue) (f₁ f₂ : Fragment),
        condition.EqualTo k v = .ok f₁ → condition.EqualTo k v = .ok f₂ →
          f₁ = f₂ := by
  constructor
  · intro t vars s₁ s₂ h₁ h₂
    rw [h₁] at h₂
    exact Except.ok.inj h₂
  · intro k v f₁ f₂ h₁ h₂
    rw [h₁] at h₂
    exact Except.ok.inj h₂

/-- C7 witness: two concrete runs of the renderer and of `EqualTo`. -/
theorem render_and_equalTo_deterministic_witness :
    (['a'] : List Char) = ['a'] ∧
      ([("k", BsonValue.doc [("$eq", BsonValue.int 3)])] : Fragment) =
        [("k", BsonValue.doc [("$eq", BsonValue.int 3)])] :=
  ⟨render_and_equalTo_deterministic.1 ['a'] [] ['a'] ['a'] rfl rfl,
   render_and_equalTo_deterministic.2 "k" (BsonValue.int 3) _ _ rfl rfl⟩

/-- C8: `FindOne` swallows the driver's no-documents error: with no match it
returns a nil error and the untouched decode target, and with a match it
also returns a nil error, so a caller cannot distinguish the two outcomes
by the error value. -/
theorem findOne_swallows_err_no_documents {α : Type} (coll : List α)
    (q : α → Bool) (rtn : α) :
    (coll.find? q = none →
      database.FindOne (database.mongoFindOneDecode coll q rtn) = (rtn, none)) ∧
    ∀ d, coll.find? q = some d →
      database.FindOne (database.mongoFindOneDecode coll q rtn) = (d, none) := by
  constructor
  · intro h
    unfold database.FindOne database.mongoFindOneDecode
    rw [h]
  · intro d h
    unfold database.FindOne database.mongoFindOneDecode
    rw [h]

/-- C8 witness: an empty collection, where no document matches. -/
theorem findOne_swallows_err_no_documents_witness :
    database.FindOne (database.mongoFindOneDecode ([] : List Nat) (fun _ => true) 7) =
      (7, none) :=
  (findOne_swallows_err_no_documents [] (fun _ => true) 7).1 rfl

/-- C9: `InitializeBaseDoc` installs the freshly generated identifier only
when the existing one is zero (a non-zero identifier is preserved), and
unconditionally sets status Active and both date fields to the current
time; `Create` and `CreateMany` run it on every document before insertion,
so every inserted document has a non-zero identifier and Active status
(the generator never producing the zero identifier). -/
theorem initializeBaseDoc_and_create_invariants (fresh : primitive.ObjectId)
    (now : Nat) (b : database.BaseDoc) (hf : fresh ≠ primitive.NilObjectID) :
    ((database.InitializeBaseDoc fresh now b).Id =
        if b.Id = primitive.NilObjectID then fresh else b.Id) ∧
    (database.InitializeBaseDoc fresh now b).Status = database.Active ∧
    (database.InitializeBaseDoc fresh now b).CreatedDate = some now ∧
    (database.InitializeBaseDoc fresh now b).ModifiedDate = some now ∧
    (database.InitializeBaseDoc fresh now b).Id ≠ primitive.NilObjectID ∧
    database.Create fresh now b = database.InitializeBaseDoc fresh now b ∧
    ∀ freshes docs, (∀ f ∈ freshes, f ≠ primitive.NilObjectID) →
      ∀ d ∈ database.CreateMany freshes now docs,
        d.Id ≠ primitive.NilObjectID ∧ d.Status = database.Active := by
  have hid : ∀ (f : primitive.ObjectId) (d : database.BaseDoc),
      (database.InitializeBaseDoc f now d).Id =
        if d.Id = primitive.NilObjectID then f else d.Id := by
    intro f d
    unfold database.InitializeBaseDoc
    by_cases h : d.Id = primitive.NilObjectID
    · simp [primitive.ObjectId.IsZero, h]
    · simp [primitive.ObjectId.IsZero, h]
  have hnz : ∀ (f : primitive.ObjectId) (d : database.BaseDoc),
      f ≠ primitive.NilObjectID →
      (database.InitializeBaseDoc f now d).Id ≠ primitive.NilObjectID := by
    intro f d hf'
    rw [hid f d]
    by_cases h : d.Id = primitive.NilObjectID
    · rw [if_pos h]; exact hf'
    · rw [if_neg h]; exact h
  have hmany : ∀ freshes docs, (∀ f ∈ freshes, f ≠ primitive.NilObjectID) →
      ∀ d ∈ database.CreateMany freshes now docs,
        d.Id ≠ primitive.NilObjectID ∧ d.Status = database.Active := by
    intro freshes
    induction freshes with
    | nil =>
      intro docs _ d hd
      cases docs <;> simp [database.CreateMany] at hd
    | cons f fs ih =>
      intro docs hfs d hd
      cases docs with
      | nil => simp [database.CreateMany] at hd
      | cons b' ds =>
        simp only [database.CreateMany] at hd
        rcases List.mem_cons.mp hd with h | h
        · rw [h]
          exact ⟨hnz f b' (hfs f (by simp)), rfl⟩
        · exact ih ds (fun g hg => hfs g (by simp [hg])) d h
  exact ⟨hid fresh b, rfl, rfl, rfl, hnz fresh b hf, rfl, hmany⟩

/-- C9 witness: a fresh non-zero identifier applied to a blank document. -/
theorem initializeBaseDoc_and_create_invariants_witness :
    (database.InitializeBaseDoc ⟨[1, 0, 0, 0, 0, 0, 0, 0, 0, 0, 0, 0]⟩ 5
        ⟨primitive.NilObjectID, database.Inactive, none, none⟩).Status =
      database.Active :=
  (initializeBaseDoc_and_create_invariants ⟨[1, 0, 0, 0, 0, 0, 0, 0, 0, 0, 0, 0]⟩
    5 ⟨primitive.NilObjectID, database.Inactive, none, none⟩ (by decide)).2.1

/-- C10: `RemoveObjectId` replaces a non-zero identifier with the freshly
generated (non-zero) one, leaves a zero identifier unchanged, and never
sets the identifier to the zero value (despite its name and comment). -/
theorem removeObjectId_never_zeroes (fresh : primitive.ObjectId)
    (b : database.BaseDoc) (hf : fresh ≠ primitive.NilObjectID) :
    (b.Id ≠ primitive.NilObjectID →
      database.RemoveObjectId fresh b = { b with Id := fresh } ∧
        (database.RemoveObjectId fresh b).Id ≠ primitive.NilObjectID) ∧
    (b.Id = primitive.NilObjectID → database.RemoveObjectId fresh b = b) ∧
    ((database.RemoveObjectId fresh b).Id = primitive.NilObjectID →
      b.Id = primitive.NilObjectID) := by
  have hrw : database.RemoveObjectId fresh b =
      if b.Id = primitive.NilObjectID then b else { b with Id := fresh } := by
    unfold database.RemoveObjectId
    by_cases h : b.Id = primitive.NilObjectID
    · simp [primitive.ObjectId.IsZero, h]
    · simp [primitive.ObjectId.IsZero, h]
  refine ⟨fun hne => ?_, fun he => ?_, fun hz0 => ?_⟩
  · rw [hrw, if_neg hne]
    exact ⟨rfl, hf⟩
  · rw [hrw, if_pos he]
  · by_cases h : b.Id = primitive.NilObjectID
    · exact h
    · rw [hrw, if_neg h] at hz0
      exact absurd hz0 hf

/-- C10 witness: a zero-identifier document is left unchanged. -/
theorem removeObjectId_never_zeroes_witness :
    database.RemoveObjectId ⟨[2, 0, 0, 0, 0, 0, 0, 0, 0, 0, 0, 0]⟩
        ⟨primitive.NilObjectID, database.Active, none, none⟩ =
      ⟨primitive.NilObjectID, database.Active, none, none⟩ :=
  (removeObjectId_never_zeroes ⟨[2, 0, 0, 0, 0, 0, 0, 0, 0, 0, 0, 0]⟩
    ⟨primitive.NilObjectID, database.Active, none, none⟩ (by decide)).2.1 rfl
